import Mathlib

/-!
Shallow embedding of `seq2seq_model.py` (class `Seq2SeqModel`) from the
Variational-Recurrent-Autoencoder-Tensorflow repository, together with
theorems settling the frozen claims about it.

Conventions of the embedding:
* Python ints are `Nat` (token ids, sizes) and `Int` where a subtraction can
  go negative; float scalars that the claims reason about exactly are `Rat`.
* `random.choice` in `get_batch` is external nondeterminism: the function is
  parameterised by `chosen`, the list of `batch_size` pairs that the calls to
  `random.choice(data[bucket_id])` returned.
* Fallible Python operations (list indexing that can raise `IndexError`,
  explicit `raise ValueError`) are modelled with `Option` / `Except`.
-/

namespace VRAE

/-- PAD token id, supplied by the external `data_utils` collaborator. -/
def PAD_ID : Nat := 0

/-- GO token id, supplied by the external `data_utils` collaborator. -/
def GO_ID : Nat := 1

/-- UNK token id, supplied by the external `data_utils` collaborator. -/
def UNK_ID : Nat := 3

/-- One length-major encoder row of `get_batch`:
`list(reversed(encoder_input + [PAD_ID] * (encoder_size - len(encoder_input))))`.
Python's `[x] * k` is empty for `k ≤ 0`, which truncated `Nat` subtraction
reproduces. -/
def encoderRow (encoder_size : Nat) (encoder_input : List Nat) : List Nat :=
  (encoder_input ++ List.replicate (encoder_size - encoder_input.length) PAD_ID).reverse

/-- One length-major decoder row of `get_batch`:
`[GO_ID] + decoder_input + [PAD_ID] * (decoder_size - len(decoder_input) - 1)`. -/
def decoderRow (decoder_size : Nat) (decoder_input : List Nat) : List Nat :=
  GO_ID :: (decoder_input ++ List.replicate (decoder_size - decoder_input.length - 1) PAD_ID)

/-- The weight `get_batch` computes at batch position `t` for a length-major
decoder row: 0 when `t == decoder_size - 1` (the final slot; the stale
`target` variable is never consulted there thanks to `or` short-circuiting),
otherwise 0 when the target `row[t+1]` is PAD and 1 otherwise.  `none` models
an `IndexError` on `row[t+1]`. -/
def weightAt? (row : List Nat) (decoder_size t : Nat) : Option Rat :=
  if t = decoder_size - 1 then some 0
  else (row.get? (t + 1)).map (fun target => if target = PAD_ID then (0 : Rat) else 1)

/-- Total version of `weightAt?`, used to describe its value when no
`IndexError` occurs. -/
def weightVal (row : List Nat) (decoder_size t : Nat) : Rat :=
  if t = decoder_size - 1 then 0
  else if row.getD (t + 1) PAD_ID = PAD_ID then 0 else 1

/-- Batch-major re-indexing: `[rows[b][t] for b in range(batch_size)]` for each
`t in range(width)`; `none` models an `IndexError`. -/
def batchMajor? (rows : List (List Nat)) (width : Nat) : Option (List (List Nat)) :=
  (List.range width).mapM (fun t => rows.mapM (fun row => row.get? t))

/-- The weight vectors of a batch: for each `t in range(decoder_size)` the
per-element weights over the length-major decoder rows. -/
def batchWeights? (rows : List (List Nat)) (decoder_size : Nat) :
    Option (List (List Rat)) :=
  (List.range decoder_size).mapM (fun t => rows.mapM (fun row => weightAt? row decoder_size t))

/-- `Seq2SeqModel.get_batch(data, bucket_id)`: `chosen` is the list of
`batch_size` outcomes of `random.choice(data[bucket_id])`, each a pair
`(encoder_input, decoder_input)`.  Returns the triple
`(batch_encoder_inputs, batch_decoder_inputs, batch_weights)`, or `none` when
an indexing error occurs (invalid `bucket_id`, or an out-of-range read). -/
def get_batch (buckets : List (Nat × Nat)) (bucket_id : Nat)
    (chosen : List (List Nat × List Nat)) :
    Option (List (List Nat) × List (List Nat) × List (List Rat)) :=
  match buckets.get? bucket_id with
  | none => none
  | some (encoder_size, decoder_size) =>
    let encRows := chosen.map (fun p => encoderRow encoder_size p.1)
    let decRows := chosen.map (fun p => decoderRow decoder_size p.2)
    match batchMajor? encRows encoder_size, batchMajor? decRows decoder_size,
          batchWeights? decRows decoder_size with
    | some be, some bd, some bw => some (be, bd, bw)
    | _, _, _ => none

/-- Every encoder row is at least `encoder_size` long. -/
lemma encoderRow_length_ge (encoder_size : Nat) (enc : List Nat) :
    encoder_size ≤ (encoderRow encoder_size enc).length := by
  simp only [encoderRow, List.length_reverse, List.length_append, List.length_replicate]
  omega

/-- Every decoder row is at least `decoder_size` long. -/
lemma decoderRow_length_ge (decoder_size : Nat) (dec : List Nat) :
    decoder_size ≤ (decoderRow decoder_size dec).length := by
  simp only [decoderRow, List.length_cons, List.length_append, List.length_replicate]
  omega

/-- `mapM` over `Option` succeeds pointwise. -/
lemma mapM_eq_some_of_forall {α β : Type} (f : α → Option β) (g : α → β) :
    ∀ l : List α, (∀ x ∈ l, f x = some (g x)) → l.mapM f = some (l.map g) := by
  intro l
  induction l with
  | nil => intro _; rfl
  | cons a t ih =>
    intro h
    have ha : f a = some (g a) := h a (by simp)
    have ht : t.mapM f = some (t.map g) := ih (fun x hx => h x (by simp [hx]))
    rw [List.mapM_cons, ha, ht]
    rfl

/-- In-range list read as a `getD`. -/
lemma get?_eq_some_getD {α : Type} [Inhabited α] (l : List α) (i : Nat) (d : α)
    (h : i < l.length) : l.get? i = some (l.getD i d) := by
  rw [List.get?_eq_get h, List.getD_eq_getElem l d h]
  rfl

/-- `batchMajor?` succeeds when every row is long enough, and produces the
column view of the rows. -/
lemma batchMajor?_eq (rows : List (List Nat)) (width : Nat)
    (h : ∀ row ∈ rows, width ≤ row.length) :
    batchMajor? rows width =
      some ((List.range width).map (fun t => rows.map (fun row => row.getD t 0))) := by
  apply mapM_eq_some_of_forall
  intro t ht
  apply mapM_eq_some_of_forall
  intro row hr
  exact get?_eq_some_getD row t 0 (lt_of_lt_of_le (List.mem_range.mp ht) (h row hr))

/-- `weightAt?` succeeds on rows of length at least `decoder_size` and equals
its total description. -/
lemma weightAt?_eq (row : List Nat) (decoder_size t : Nat)
    (hrow : decoder_size ≤ row.length) (ht : t < decoder_size) :
    weightAt? row decoder_size t = some (weightVal row decoder_size t) := by
  unfold weightAt? weightVal
  by_cases h : t = decoder_size - 1
  · simp [h]
  · have hlt : t + 1 < row.length := by omega
    rw [if_neg h, if_neg h, get?_eq_some_getD row (t + 1) PAD_ID hlt]
    rfl

/-- `batchWeights?` succeeds when every row is long enough. -/
lemma batchWeights?_eq (rows : List (List Nat)) (decoder_size : Nat)
    (h : ∀ row ∈ rows, decoder_size ≤ row.length) :
    batchWeights? rows decoder_size =
      some ((List.range decoder_size).map
        (fun t => rows.map (fun row => weightVal row decoder_size t))) := by
  apply mapM_eq_some_of_forall
  intro t ht
  apply mapM_eq_some_of_forall
  intro row hr
  exact weightAt?_eq row decoder_size t (h row hr) (List.mem_range.mp ht)

/-- `get_batch` never raises for a valid `bucket_id`: it returns the column
views of the padded-and-reversed encoder rows and of the GO-prefixed padded
decoder rows, together with the weight vectors. -/
lemma get_batch_eq (buckets : List (Nat × Nat)) (bucket_id : Nat)
    (chosen : List (List Nat × List Nat)) (I O : Nat)
    (hb : buckets.get? bucket_id = some (I, O)) :
    get_batch buckets bucket_id chosen =
      some ((List.range I).map (fun t => chosen.map (fun p => (encoderRow I p.1).getD t 0)),
            (List.range O).map (fun t => chosen.map (fun p => (decoderRow O p.2).getD t 0)),
            (List.range O).map (fun t => chosen.map (fun p => weightVal (decoderRow O p.2) O t))) := by
  unfold get_batch
  rw [hb]
  dsimp only
  rw [batchMajor?_eq _ _ (by
        intro row hr
        obtain ⟨p, _, hp⟩ := List.mem_map.mp hr
        exact hp ▸ encoderRow_length_ge I p.1),
      batchMajor?_eq _ _ (by
        intro row hr
        obtain ⟨p, _, hp⟩ := List.mem_map.mp hr
        exact hp ▸ decoderRow_length_ge O p.2),
      batchWeights?_eq _ _ (by
        intro row hr
        obtain ⟨p, _, hp⟩ := List.mem_map.mp hr
        exact hp ▸ decoderRow_length_ge O p.2)]
  simp [List.map_map, Function.comp]

/-- C1: in every batch returned by `get_batch` on a bucket of output width `O`,
the weight at step `t` of batch element `b` is 0 exactly when the target token
(the length-major decoder row read at position `t + 1`) is PAD or `t = O - 1`;
in particular when `O = 1` every weight of the batch is 0. -/
theorem c1_weight_masking
    (buckets : List (Nat × Nat)) (bucket_id : Nat) (chosen : List (List Nat × List Nat))
    (I O : Nat) (e d : List (List Nat)) (w : List (List Rat)) (t b : Nat)
    (pair : List Nat × List Nat)
    (hb : buckets.get? bucket_id = some (I, O))
    (hg : get_batch buckets bucket_id chosen = some (e, d, w))
    (ht : t < O) (hp : chosen.get? b = some pair) :
    (((w.get? t).bind (fun v => v.get? b) = some 0) ↔
      ((decoderRow O pair.2).get? (t + 1) = some PAD_ID ∨ t = O - 1)) ∧
    (O = 1 → (w.get? t).bind (fun v => v.get? b) = some 0) := by
  rw [get_batch_eq buckets bucket_id chosen I O hb] at hg
  simp only [Option.some.injEq, Prod.mk.injEq] at hg
  obtain ⟨he, hd, hw⟩ := hg
  have h1 : w.get? t = some (chosen.map (fun p => weightVal (decoderRow O p.2) O t)) := by
    rw [← hw, List.get?_map, List.get?_range ht]
    rfl
  have h2 : (w.get? t).bind (fun v => v.get? b) =
      some (weightVal (decoderRow O pair.2) O t) := by
    rw [h1, Option.some_bind, List.get?_map, hp]
    rfl
  rw [h2]
  constructor
  · by_cases hOt : t = O - 1
    · simp [weightVal, hOt]
    · have ht1 : t + 1 < (decoderRow O pair.2).length :=
        lt_of_lt_of_le (by omega) (decoderRow_length_ge O pair.2)
      rw [get?_eq_some_getD (decoderRow O pair.2) (t + 1) PAD_ID ht1]
      unfold weightVal
      rw [if_neg hOt]
      by_cases hpad : (decoderRow O pair.2).getD (t + 1) PAD_ID = PAD_ID
      · rw [if_pos hpad, hpad]
        simp
      · rw [if_neg hpad]
        constructor
        · intro hcon
          exact absurd (Option.some_injective Rat hcon) one_ne_zero
        · intro hcon
          rcases hcon with hcon | hcon
          · exact absurd (Option.some_injective _ hcon) hpad
          · exact absurd hcon hOt
  · intro hO1
    have ht0 : t = 0 := by omega
    simp [weightVal, ht0, hO1]

/-- Witness for C1 at buckets `[(2,4)]`, batch `[([3],[5])]`, step `t = 1`,
batch element 0: the target `decoderRow 4 [5] = [GO,5,PAD,PAD]` read at
position 2 is PAD, so the weight is 0. -/
theorem c1_weight_masking_witness :
    ((((([[(1 : Rat)], [0], [0], [0]] : List (List Rat)).get? 1).bind
        (fun v => v.get? 0) = some 0) ↔
      ((decoderRow 4 [5]).get? (1 + 1) = some PAD_ID ∨ 1 = 4 - 1)) ∧
    (4 = 1 → (([[(1 : Rat)], [0], [0], [0]] : List (List Rat)).get? 1).bind
        (fun v => v.get? 0) = some 0)) :=
  c1_weight_masking [(2, 4)] 0 [([3], [5])] 2 4
    [[0], [3]] [[1], [5], [0], [0]] [[1], [0], [0], [0]] 1 0 ([3], [5])
    (by decide) (by decide) (by decide) (by decide)

/-- C3 (counterexample): on bucket `(2, 4)` the claim says
`batch_decoder_inputs` should have output-width + 1 = 5 vectors, but
`get_batch` produces exactly 4 (the loop runs over `range(decoder_size)`). -/
theorem c3_counterexample :
    (get_batch [(2, 4)] 0 [([3], [5])]).map (fun r => r.2.1.length) = some 4 ∧
    (4 : Nat) ≠ 4 + 1 := by
  constructor
  · decide
  · decide

/-- C3 (amended): `batch_encoder_inputs` has exactly `I` vectors of length
`batch_size`, `batch_decoder_inputs` has exactly `O` vectors (the batch-major
view of the GO-prefixed, PAD-padded decoder rows) of length `batch_size`, and
`batch_weights` is a parallel list of `O` weight vectors of the same length. -/
theorem c3_batch_shapes
    (buckets : List (Nat × Nat)) (bucket_id : Nat) (chosen : List (List Nat × List Nat))
    (I O : Nat) (e d : List (List Nat)) (w : List (List Rat))
    (hb : buckets.get? bucket_id = some (I, O))
    (hg : get_batch buckets bucket_id chosen = some (e, d, w)) :
    e.length = I ∧ (∀ v ∈ e, v.length = chosen.length) ∧
    d.length = O ∧ (∀ v ∈ d, v.length = chosen.length) ∧
    w.length = O ∧ (∀ v ∈ w, v.length = chosen.length) ∧
    (∀ t, t < O →
      d.get? t = some (chosen.map (fun p => (decoderRow O p.2).getD t 0))) := by
  rw [get_batch_eq buckets bucket_id chosen I O hb] at hg
  simp only [Option.some.injEq, Prod.mk.injEq] at hg
  obtain ⟨he, hd, hw⟩ := hg
  refine ⟨?_, ?_, ?_, ?_, ?_, ?_, ?_⟩
  · rw [← he, List.length_map, List.length_range]
  · intro v hv
    rw [← he] at hv
    obtain ⟨t, _, hvt⟩ := List.mem_map.mp hv
    rw [← hvt, List.length_map]
  · rw [← hd, List.length_map, List.length_range]
  · intro v hv
    rw [← hd] at hv
    obtain ⟨t, _, hvt⟩ := List.mem_map.mp hv
    rw [← hvt, List.length_map]
  · rw [← hw, List.length_map, List.length_range]
  · intro v hv
    rw [← hw] at hv
    obtain ⟨t, _, hvt⟩ := List.mem_map.mp hv
    rw [← hvt, List.length_map]
  · intro t ht
    rw [← hd, List.get?_map, List.get?_range ht]
    rfl

/-- Witness for (amended) C3: on bucket `(2, 4)` with one chosen example, the
decoder side of the batch has exactly 4 vectors. -/
theorem c3_batch_shapes_witness :
    ([[1], [5], [0], [0]] : List (List Nat)).length = 4 :=
  (c3_batch_shapes [(2, 4)] 0 [([3], [5])] 2 4
    [[0], [3]] [[1], [5], [0], [0]] [[1], [0], [0], [0]]
    (by decide) (by decide)).2.2.1

/-- `dropWhile` skips a replicated block whose element satisfies the
predicate. -/
lemma dropWhile_replicate_append (p : Nat → Bool) (k a : Nat) (hp : p a = true)
    (l : List Nat) :
    (List.replicate k a ++ l).dropWhile p = l.dropWhile p := by
  induction k with
  | zero => simp
  | succ n ih => simp [List.replicate_succ, List.dropWhile_cons, hp, ih]

/-- Strip trailing PAD tokens from a sequence. -/
def stripTrailingPad (l : List Nat) : List Nat :=
  (l.reverse.dropWhile (fun x => x == PAD_ID)).reverse

/-- C7: for an input sequence of length at most the bucket input width that
does not itself end in PAD, reversing the rendered encoder row back and
stripping trailing PAD tokens recovers the original sequence. -/
theorem c7_padding_reversal_roundtrip (I : Nat) (enc : List Nat)
    (hlen : enc.length ≤ I) (hlast : enc.getLast? ≠ some PAD_ID) :
    stripTrailingPad (encoderRow I enc).reverse = enc := by
  unfold stripTrailingPad encoderRow
  rw [List.reverse_reverse, List.reverse_append, List.reverse_replicate]
  rw [dropWhile_replicate_append _ _ _ (by simp) enc.reverse]
  cases henc : enc.reverse with
  | nil =>
    rw [List.reverse_eq_nil_iff] at henc
    simp [henc]
  | cons a as =>
    have ha : enc.getLast? = some a := by
      rw [← List.head?_reverse, henc]
      rfl
    have hane : a ≠ PAD_ID := by
      intro hcon
      exact hlast (hcon ▸ ha)
    have hpa : (a == PAD_ID) = false := beq_eq_false_iff_ne.mpr hane
    rw [List.dropWhile_cons, hpa]
    simp only [Bool.false_eq_true, if_false]
    rw [← henc, List.reverse_reverse]

/-- Witness for C7 at `I = 4`, `enc = [7, 0, 5]` (an interior PAD is kept,
trailing PADs added by padding are stripped). -/
theorem c7_padding_reversal_roundtrip_witness :
    stripTrailingPad (encoderRow 4 [7, 0, 5]).reverse = [7, 0, 5] :=
  c7_padding_reversal_roundtrip 4 [7, 0, 5] (by decide) (by decide)

/-- C9: when a chosen example's output sequence has length exactly the bucket
output width `O`, the Python pad count `decoder_size - len(decoder_input) - 1`
is `-1` (an empty pad), the GO-prefixed row has `O + 1` entries, `get_batch`
still succeeds (no error is raised), the batch-major re-indexing reads only the
first `O` entries of the row — the GO token followed by all but the last output
token — and the dropped entry at row position `O` is the example's final
token. -/
theorem c9_output_width_truncation
    (buckets : List (Nat × Nat)) (bucket_id : Nat) (chosen : List (List Nat × List Nat))
    (I O b : Nat) (pair : List Nat × List Nat)
    (hb : buckets.get? bucket_id = some (I, O))
    (hp : chosen.get? b = some pair)
    (hlen : pair.2.length = O) (hO : 0 < O) :
    ((O : Int) - (pair.2.length : Int) - 1 = -1) ∧
    (decoderRow O pair.2).length = O + 1 ∧
    (decoderRow O pair.2).get? O = pair.2.get? (O - 1) ∧
    ∃ e d w, get_batch buckets bucket_id chosen = some (e, d, w) ∧
      ∀ t, t < O →
        (d.get? t).bind (fun v => v.get? b) = (GO_ID :: pair.2.dropLast).get? t := by
  have hrow : decoderRow O pair.2 = GO_ID :: pair.2 := by
    unfold decoderRow
    rw [hlen]
    simp
  refine ⟨by omega, ?_, ?_, ?_⟩
  · rw [hrow]
    simp [hlen]
  · rw [hrow]
    obtain ⟨m, rfl⟩ : ∃ m, O = m + 1 := ⟨O - 1, by omega⟩
    simp only [List.get?_cons_succ, Nat.succ_sub_one]
  · refine ⟨_, _, _, get_batch_eq buckets bucket_id chosen I O hb, ?_⟩
    intro t ht
    rw [List.get?_map, List.get?_range ht, Option.map_some', Option.some_bind,
        List.get?_map, hp, Option.map_some']
    show some ((decoderRow O pair.2).getD t 0) = _
    rw [hrow]
    cases t with
    | zero => rfl
    | succ s =>
      have hs2 : s < pair.2.dropLast.length := by
        rw [List.length_dropLast, hlen]
        omega
      have hs3 : s < pair.2.length := by omega
      rw [List.getD_cons_succ, List.get?_cons_succ, List.get?_eq_get hs2]
      simp only [Option.some.injEq, List.get_eq_getElem]
      rw [List.getD_eq_getElem _ _ hs3, List.getElem_dropLast]

/-- Witness for C9 at bucket `(2, 4)`, output `[5, 6, 7, 8]` of length exactly
4: the Python pad count is `-1`. -/
theorem c9_output_width_truncation_witness :
    ((4 : Int) - (([5, 6, 7, 8] : List Nat).length : Int) - 1 = -1) :=
  (c9_output_width_truncation [(2, 4)] 0 [([3], [5, 6, 7, 8])] 2 4 0
    ([3], [5, 6, 7, 8]) (by decide) (by decide) (by decide) (by decide)).1

/-- The errors the call-time entry points of the model can raise:
the three `ValueError`s of `step` (each naming the got/expected dimensions),
and Python `IndexError` from out-of-range list reads. -/
inductive CallError where
  | encoderLength (got expected : Nat)
  | decoderLength (got expected : Nat)
  | weightsLength (got expected : Nat)
  | indexError
  deriving DecidableEq

/-- The feed dictionary an entry point builds before calling `session.run`:
encoder/decoder/weight vectors keyed by placeholder index, the zero-filled
extra last target, the optional feed overriding the bucket's `logvars` tensor,
the optional `means` feed, and the optional word-dropout `replace_input`
feed. -/
structure InputFeed where
  encoder : List (List Nat)
  decoder : List (List Nat)
  weights : List (List Rat)
  lastTarget : List Nat
  meansFeed : Option (List (List Rat))
  logvarsFeed : Option (List (List Rat))
  replaceInput : Option (List Nat)
  deriving DecidableEq

/-- `Seq2SeqModel.step` up to the point where `session.run` is called: the
three explicit length checks (raised before any feed entry is built), then the
feed construction.  When `prob` is false the bucket's `logvars` tensor is fed
the constant `-800.0` for every batch element and latent dimension; when
`prob` is true no `logvars` feed is installed, so the encoder-produced
log-variance is used unchanged. -/
def step (buckets : List (Nat × Nat)) (bucket_id : Nat)
    (encoder_inputs decoder_inputs : List (List Nat)) (target_weights : List (List Rat))
    (batch_size latent_dim : Nat) (word_dropout_keep_prob : Rat) (prob : Bool) :
    Except CallError InputFeed :=
  match buckets.get? bucket_id with
  | none => .error .indexError
  | some (encoder_size, decoder_size) =>
    if encoder_inputs.length ≠ encoder_size then
      .error (.encoderLength encoder_inputs.length encoder_size)
    else if decoder_inputs.length ≠ decoder_size then
      .error (.decoderLength decoder_inputs.length decoder_size)
    else if target_weights.length ≠ decoder_size then
      .error (.weightsLength target_weights.length decoder_size)
    else
      .ok { encoder := encoder_inputs.take encoder_size,
            decoder := decoder_inputs.take decoder_size,
            weights := target_weights.take decoder_size,
            lastTarget := List.replicate batch_size 0,
            meansFeed := none,
            logvarsFeed :=
              if prob then none
              else some (List.replicate batch_size (List.replicate latent_dim (-800 : Rat))),
            replaceInput :=
              if word_dropout_keep_prob < 1 then some (List.replicate batch_size UNK_ID)
              else none }

/-- `Seq2SeqModel.encode_to_latent` up to `session.run`: one length check on
the encoder inputs, then the encoder feed. -/
def encode_to_latent (buckets : List (Nat × Nat)) (bucket_id : Nat)
    (encoder_inputs : List (List Nat)) : Except CallError (List (List Nat)) :=
  match buckets.get? bucket_id with
  | none => .error .indexError
  | some (encoder_size, _) =>
    if encoder_inputs.length ≠ encoder_size then
      .error (.encoderLength encoder_inputs.length encoder_size)
    else .ok (encoder_inputs.take encoder_size)

/-- `Seq2SeqModel.decode_from_latent` up to `session.run`: no length check at
all — the feed loop reads `decoder_inputs[l]` and `target_weights[l]` for
`l in range(decoder_size)`, which can only raise `IndexError` when a list is
too short, never a length-mismatch `ValueError`. -/
def decode_from_latent (buckets : List (Nat × Nat)) (bucket_id : Nat)
    (means logvars : List (List Rat))
    (decoder_inputs : List (List Nat)) (target_weights : List (List Rat))
    (batch_size : Nat) (word_dropout_keep_prob : Rat) :
    Except CallError InputFeed :=
  match buckets.get? bucket_id with
  | none => .error .indexError
  | some (_, decoder_size) =>
    match (List.range decoder_size).mapM (fun l => decoder_inputs.get? l),
          (List.range decoder_size).mapM (fun l => target_weights.get? l) with
    | some ds, some ws =>
      .ok { encoder := [],
            decoder := ds,
            weights := ws,
            lastTarget := List.replicate batch_size 0,
            meansFeed := some means,
            logvarsFeed := some logvars,
            replaceInput :=
              if word_dropout_keep_prob < 1 then some (List.replicate batch_size UNK_ID)
              else none }
    | _, _ => .error .indexError

/-- C5: `step` succeeds exactly when the encoder list has the bucket's input
width and the decoder and weight lists have the bucket's output width, and on
a mismatch it raises, before any feed is built, the `ValueError` naming the
offending got/expected dimensions, checking encoder, then decoder, then
weights. -/
theorem c5_step_validation
    (buckets : List (Nat × Nat)) (bucket_id : Nat)
    (enc dec : List (List Nat)) (wts : List (List Rat))
    (batch_size latent_dim : Nat) (kp : Rat) (prob : Bool) (I O : Nat)
    (hb : buckets.get? bucket_id = some (I, O)) :
    ((∃ feed, step buckets bucket_id enc dec wts batch_size latent_dim kp prob =
        .ok feed) ↔ (enc.length = I ∧ dec.length = O ∧ wts.length = O)) ∧
    (enc.length ≠ I →
      step buckets bucket_id enc dec wts batch_size latent_dim kp prob =
        .error (.encoderLength enc.length I)) ∧
    (enc.length = I → dec.length ≠ O →
      step buckets bucket_id enc dec wts batch_size latent_dim kp prob =
        .error (.decoderLength dec.length O)) ∧
    (enc.length = I → dec.length = O → wts.length ≠ O →
      step buckets bucket_id enc dec wts batch_size latent_dim kp prob =
        .error (.weightsLength wts.length O)) := by
  unfold step
  rw [hb]
  dsimp only
  by_cases h1 : enc.length = I
  · by_cases h2 : dec.length = O
    · by_cases h3 : wts.length = O
      · rw [if_neg (by simp [h1]), if_neg (by simp [h2]), if_neg (by simp [h3])]
        refine ⟨⟨fun _ => ⟨h1, h2, h3⟩, fun _ => ⟨_, rfl⟩⟩, ?_, ?_, ?_⟩
        · intro hcon; exact absurd h1 hcon
        · intro _ hcon; exact absurd h2 hcon
        · intro _ _ hcon; exact absurd h3 hcon
      · rw [if_neg (by simp [h1]), if_neg (by simp [h2]), if_pos (by simp [h3])]
        refine ⟨⟨fun hcon => ?_, fun hcon => absurd hcon.2.2 h3⟩, ?_, ?_, ?_⟩
        · obtain ⟨feed, hfeed⟩ := hcon
          exact absurd hfeed (by simp)
        · intro hcon; exact absurd h1 hcon
        · intro _ hcon; exact absurd h2 hcon
        · intro _ _ _; rfl
    · rw [if_neg (by simp [h1]), if_pos (by simp [h2])]
      refine ⟨⟨fun hcon => ?_, fun hcon => absurd hcon.2.1 h2⟩, ?_, ?_, ?_⟩
      · obtain ⟨feed, hfeed⟩ := hcon
        exact absurd hfeed (by simp)
      · intro hcon; exact absurd h1 hcon
      · intro _ _; rfl
      · intro _ hcon _; exact absurd hcon h2
  · rw [if_pos (by simp [h1])]
    refine ⟨⟨fun hcon => ?_, fun hcon => absurd hcon.1 h1⟩, ?_, ?_, ?_⟩
    · obtain ⟨feed, hfeed⟩ := hcon
      exact absurd hfeed (by simp)
    · intro _; rfl
    · intro hcon _; exact absurd hcon h1
    · intro hcon _ _; exact absurd hcon h1

/-- Witness for C5 at buckets `[(2, 4)]`: with a well-sized call the feed is
built, and the three mismatch branches raise the dimension-naming errors. -/
theorem c5_step_validation_witness :
    ((∃ feed, step [(2, 4)] 0 [[9], [9]] [[1], [5], [0], [0]] [[1], [0], [0], [0]]
        1 2 1 true = .ok feed) ↔
      (([[9], [9]] : List (List Nat)).length = 2 ∧
       ([[1], [5], [0], [0]] : List (List Nat)).length = 4 ∧
       ([[1], [0], [0], [0]] : List (List Rat)).length = 4)) ∧
    (([[9], [9]] : List (List Nat)).length ≠ 2 →
      step [(2, 4)] 0 [[9], [9]] [[1], [5], [0], [0]] [[1], [0], [0], [0]] 1 2 1 true =
        .error (.encoderLength ([[9], [9]] : List (List Nat)).length 2)) ∧
    (([[9], [9]] : List (List Nat)).length = 2 →
      ([[1], [5], [0], [0]] : List (List Nat)).length ≠ 4 →
      step [(2, 4)] 0 [[9], [9]] [[1], [5], [0], [0]] [[1], [0], [0], [0]] 1 2 1 true =
        .error (.decoderLength ([[1], [5], [0], [0]] : List (List Nat)).length 4)) ∧
    (([[9], [9]] : List (List Nat)).length = 2 →
      ([[1], [5], [0], [0]] : List (List Nat)).length = 4 →
      ([[1], [0], [0], [0]] : List (List Rat)).length ≠ 4 →
      step [(2, 4)] 0 [[9], [9]] [[1], [5], [0], [0]] [[1], [0], [0], [0]] 1 2 1 true =
        .error (.weightsLength ([[1], [0], [0], [0]] : List (List Rat)).length 4)) :=
  c5_step_validation [(2, 4)] 0 [[9], [9]] [[1], [5], [0], [0]] [[1], [0], [0], [0]]
    1 2 1 true 2 4 (by decide)

/-- C8: on a well-sized call, `step` with `prob = false` feeds the bucket's
log-variance tensor the constant `-800.0` for every batch element and latent
dimension, while with `prob = true` it installs no log-variance feed, leaving
the encoder-produced log-variance unchanged. -/
theorem c8_step_logvar_forcing
    (buckets : List (Nat × Nat)) (bucket_id : Nat)
    (enc dec : List (List Nat)) (wts : List (List Rat))
    (batch_size latent_dim : Nat) (kp : Rat) (I O : Nat)
    (hb : buckets.get? bucket_id = some (I, O))
    (h1 : enc.length = I) (h2 : dec.length = O) (h3 : wts.length = O) :
    (∃ feed, step buckets bucket_id enc dec wts batch_size latent_dim kp false =
        .ok feed ∧
      feed.logvarsFeed =
        some (List.replicate batch_size (List.replicate latent_dim (-800 : Rat)))) ∧
    (∃ feed, step buckets bucket_id enc dec wts batch_size latent_dim kp true =
        .ok feed ∧ feed.logvarsFeed = none) := by
  refine ⟨⟨{ encoder := enc.take I, decoder := dec.take O, weights := wts.take O,
             lastTarget := List.replicate batch_size 0, meansFeed := none,
             logvarsFeed :=
               some (List.replicate batch_size (List.replicate latent_dim (-800 : Rat))),
             replaceInput :=
               if kp < 1 then some (List.replicate batch_size UNK_ID) else none },
           ?_, rfl⟩,
         ⟨{ encoder := enc.take I, decoder := dec.take O, weights := wts.take O,
            lastTarget := List.replicate batch_size 0, meansFeed := none,
            logvarsFeed := none,
            replaceInput :=
              if kp < 1 then some (List.replicate batch_size UNK_ID) else none },
          ?_, rfl⟩⟩
  all_goals
    unfold step
    rw [hb]
    dsimp only
    rw [if_neg (by simp [h1]), if_neg (by simp [h2]), if_neg (by simp [h3])]
    simp

/-- Witness for C8 at buckets `[(1, 1)]`, batch size 2, latent dimension 3. -/
theorem c8_step_logvar_forcing_witness :
    (∃ feed, step [(1, 1)] 0 [[4, 4]] [[1, 1]] [[0, 0]] 2 3 1 false = .ok feed ∧
      feed.logvarsFeed = some (List.replicate 2 (List.replicate 3 (-800 : Rat)))) ∧
    (∃ feed, step [(1, 1)] 0 [[4, 4]] [[1, 1]] [[0, 0]] 2 3 1 true = .ok feed ∧
      feed.logvarsFeed = none) :=
  c8_step_logvar_forcing [(1, 1)] 0 [[4, 4]] [[1, 1]] [[0, 0]] 2 3 1 1 1
    (by decide) (by decide) (by decide) (by decide)

/-- C10: `decode_from_latent` performs no length validation: whatever
`decoder_inputs` and `target_weights` are passed — in particular lists whose
lengths differ from the bucket's output width — it never raises one of the
length-mismatch `ValueError`s (it either builds the feed or fails with a plain
`IndexError` on an out-of-range read), unlike `step` and `encode_to_latent`,
which raise a dimension-naming `ValueError` on a mismatched encoder list. -/
theorem c10_decode_from_latent_no_validation
    (buckets : List (Nat × Nat)) (bucket_id : Nat)
    (means logvars : List (List Rat))
    (dec : List (List Nat)) (wts : List (List Rat))
    (batch_size : Nat) (kp : Rat) (I O : Nat)
    (hb : buckets.get? bucket_id = some (I, O))
    (hmm : dec.length ≠ O ∨ wts.length ≠ O) :
    (∀ g x, decode_from_latent buckets bucket_id means logvars dec wts batch_size kp ≠
        .error (.encoderLength g x)) ∧
    (∀ g x, decode_from_latent buckets bucket_id means logvars dec wts batch_size kp ≠
        .error (.decoderLength g x)) ∧
    (∀ g x, decode_from_latent buckets bucket_id means logvars dec wts batch_size kp ≠
        .error (.weightsLength g x)) ∧
    (∀ encIn : List (List Nat), encIn.length ≠ I →
      encode_to_latent buckets bucket_id encIn =
        .error (.encoderLength encIn.length I)) := by
  refine ⟨?_, ?_, ?_, ?_⟩
  all_goals
    first
    | (intro g x
       unfold decode_from_latent
       rw [hb]
       dsimp only
       cases (List.range O).mapM (fun l => dec.get? l) with
       | none => simp
       | some ds =>
         cases (List.range O).mapM (fun l => wts.get? l) with
         | none => simp
         | some ws => simp)
    | (intro encIn hcon
       unfold encode_to_latent
       rw [hb]
       dsimp only
       rw [if_pos (by simp [hcon])])

/-- Witness for C10 at buckets `[(2, 4)]` with a decoder list of length 2 (too
short for the width-4 bucket): no length-mismatch error is possible. -/
theorem c10_decode_from_latent_no_validation_witness :
    (∀ g x, decode_from_latent [(2, 4)] 0 [[0]] [[0]] [[1], [5]] [[1], [0]] 1 1 ≠
        .error (.encoderLength g x)) ∧
    (∀ g x, decode_from_latent [(2, 4)] 0 [[0]] [[0]] [[1], [5]] [[1], [0]] 1 1 ≠
        .error (.decoderLength g x)) ∧
    (∀ g x, decode_from_latent [(2, 4)] 0 [[0]] [[0]] [[1], [5]] [[1], [0]] 1 1 ≠
        .error (.weightsLength g x)) ∧
    (∀ encIn : List (List Nat), encIn.length ≠ 2 →
      encode_to_latent [(2, 4)] 0 encIn = .error (.encoderLength encIn.length 2)) :=
  c10_decode_from_latent_no_validation [(2, 4)] 0 [[0]] [[0]] [[1], [5]] [[1], [0]]
    1 1 2 4 (by decide) (by decide)

/-- The constructor's test installing sampled softmax:
`num_samples > 0 and num_samples < self.target_vocab_size`. -/
def sampled_softmax_active (num_samples target_vocab_size : Nat) : Bool :=
  decide (0 < num_samples) && decide (num_samples < target_vocab_size)

/-- The number of sampled classes `Seq2SeqModel.sampled_loss` passes to
`tf.nn.sampled_softmax_loss`: the literal `num_sampled=512`, independent of
the constructor argument `num_samples`. -/
def sampled_loss_num_sampled (num_samples : Nat) : Nat := 512

/-- C4 (code bug, evaluated at the failing input): with `num_samples = 100`
and `target_vocab_size = 200` sampled softmax is active, yet the installed
loss draws 512 sampled classes, not the 100 the constructor argument (and its
docstring) promise. -/
theorem c4_sampled_loss_hardcoded :
    sampled_softmax_active 100 200 = true ∧
    sampled_loss_num_sampled 100 = 512 ∧ (512 : Nat) ≠ 100 := by
  decide

/-- `math_ops.add_n`: elementwise sum of a list of equal-length vectors
(TensorFlow requires at least one summand; the empty case never occurs for a
bucket of positive output width). -/
def add_n : List (List Rat) → List Rat
  | [] => []
  | v :: rest => rest.foldl (fun acc w => List.zipWith (· + ·) acc w) v

/-- The `1e-9` guard added to the per-example total target weight. -/
def epsWeight : Rat := 1 / 1000000000

/-- `tf.reduce_mean` over the batch dimension. -/
def reduce_mean (l : List Rat) : Rat := l.sum / (l.length : Rat)

/-- Lines 298–301 of `variational_decoder_with_buckets`: for one bucket of
output width `decoder_size`, divide the per-example vector `v` (`kl_obj` or
`kl_cost`) elementwise by
`add_n(weights[:decoder_size]) + 1e-9` and take the batch mean. -/
def klBucketTerm (v : List Rat) (weights : List (List Rat)) (decoder_size : Nat) : Rat :=
  reduce_mean (List.zipWith (· / ·) v
    ((add_n (weights.take decoder_size)).map (fun x => x + epsWeight)))

/-- `Seq2SeqModel.variational_decoder_with_buckets` restricted to what the
claims observe: the construction-time length checks on `targets` and
`weights` against `buckets[-1][1]` (raised before any per-bucket computation),
then for every bucket `j` the scalars `KL_objs[j]` and `KL_costs[j]` built
from the per-example vectors `klObjs[j]` / `klCosts[j]` that
`sample(means[j], logvars[j])` produced. -/
def variational_decoder_with_buckets
    (klObjs klCosts : List (List Rat)) (targets : List (List Nat))
    (weights : List (List Rat)) (buckets : List (Nat × Nat)) :
    Except String (List Rat × List Rat) :=
  match buckets.getLast? with
  | none => .error "IndexError: buckets is empty"
  | some lastB =>
    if targets.length < lastB.2 then
      .error "Length of targets must be at least that of last bucket."
    else if weights.length < lastB.2 then
      .error "Length of weights must be at least that of last bucket."
    else
      .ok ((List.range buckets.length).map
             (fun j => klBucketTerm (klObjs.getD j []) weights ((buckets.getD j (0, 0)).2)),
           (List.range buckets.length).map
             (fun j => klBucketTerm (klCosts.getD j []) weights ((buckets.getD j (0, 0)).2)))

/-- An in-range `get?` determines `getD`. -/
lemma getD_of_get? {α : Type} (l : List α) (j : Nat) (x d : α)
    (h : l.get? j = some x) : l.getD j d = x := by
  obtain ⟨hj, hx⟩ := List.get?_eq_some.mp h
  rw [List.getD_eq_getElem _ _ hj]
  exact hx

/-- Index description of the elementwise-sum fold underlying `add_n`. -/
lemma foldl_zipWith_spec (n : Nat) (ls : List (List Rat)) :
    ∀ acc : List Rat, acc.length = n → (∀ w ∈ ls, w.length = n) →
      (ls.foldl (fun a w => List.zipWith (· + ·) a w) acc).length = n ∧
      ∀ b, b < n →
        (ls.foldl (fun a w => List.zipWith (· + ·) a w) acc).getD b 0 =
          acc.getD b 0 + (ls.map (fun w => w.getD b 0)).sum := by
  induction ls with
  | nil =>
    intro acc ha _
    exact ⟨ha, fun b _ => by simp⟩
  | cons w rest ih =>
    intro acc ha hmem
    have hw : w.length = n := hmem w (by simp)
    have hzlen : (List.zipWith (· + ·) acc w).length = n := by
      rw [List.length_zipWith, ha, hw]
      exact Nat.min_self n
    obtain ⟨hl, hD⟩ :=
      ih (List.zipWith (· + ·) acc w) hzlen (fun x hx => hmem x (by simp [hx]))
    refine ⟨by simpa using hl, fun b hb => ?_⟩
    have hstep : ((w :: rest).foldl (fun a w => List.zipWith (· + ·) a w) acc) =
        rest.foldl (fun a w => List.zipWith (· + ·) a w) (List.zipWith (· + ·) acc w) := rfl
    rw [hstep, hD b hb]
    have hzD : (List.zipWith (· + ·) acc w).getD b 0 = acc.getD b 0 + w.getD b 0 := by
      rw [List.getD_eq_getElem _ _ (by rw [hzlen]; exact hb), List.getElem_zipWith,
          List.getD_eq_getElem _ _ (by rw [ha]; exact hb),
          List.getD_eq_getElem _ _ (by rw [hw]; exact hb)]
    rw [hzD, List.map_cons, List.sum_cons]
    ring

/-- `add_n` of a nonempty list of length-`n` vectors has length `n` and sums
them pointwise. -/
lemma add_n_spec (ls : List (List Rat)) (n : Nat) (hne : ls ≠ [])
    (h : ∀ w ∈ ls, w.length = n) :
    (add_n ls).length = n ∧
    ∀ b, b < n → (add_n ls).getD b 0 = (ls.map (fun w => w.getD b 0)).sum := by
  cases ls with
  | nil => exact absurd rfl hne
  | cons v rest =>
    have hv : v.length = n := h v (by simp)
    obtain ⟨hl, hD⟩ := foldl_zipWith_spec n rest v hv (fun x hx => h x (by simp [hx]))
    refine ⟨hl, fun b hb => ?_⟩
    rw [show add_n (v :: rest) = rest.foldl (fun a w => List.zipWith (· + ·) a w) v from rfl,
        hD b hb, List.map_cons, List.sum_cons]

/-- Sum of a `zipWith` of equal-length vectors as an index-wise sum. -/
lemma zipWith_sum_eq (f : Rat → Rat → Rat) :
    ∀ a b : List Rat, a.length = b.length →
      (List.zipWith f a b).sum =
        ((List.range a.length).map (fun i => f (a.getD i 0) (b.getD i 0))).sum := by
  intro a
  induction a with
  | nil => intro b _; simp
  | cons x xs ih =>
    intro b hb
    cases b with
    | nil => simp at hb
    | cons y ys =>
      simp only [List.zipWith_cons_cons, List.sum_cons, List.length_cons]
      rw [ih ys (by simpa using hb), List.range_succ_eq_map]
      simp only [List.map_cons, List.sum_cons, List.getD_cons_zero, List.map_map]
      congr 1

/-- A `take` as a map over indices. -/
lemma take_eq_map_range (l : List (List Rat)) (W : Nat) (hW : W ≤ l.length) :
    l.take W = (List.range W).map (fun t => l.getD t []) := by
  apply List.ext_getElem
  · simp [List.length_take, Nat.min_eq_left hW]
  · intro i h1 h2
    have hiW : i < W := by
      simpa [List.length_take, Nat.min_eq_left hW] using h1
    rw [List.getElem_take, List.getElem_map, List.getElem_range,
        List.getD_eq_getElem _ _ (lt_of_lt_of_le hiW hW)]

/-- The per-bucket KL term, spelled out index-wise: the batch mean of each
example's value divided by that example's total target weight plus `1e-9`. -/
lemma klBucketTerm_spec (v : List Rat) (weights : List (List Rat)) (W n : Nat)
    (hvn : v.length = n) (hwn : ∀ wv ∈ weights, wv.length = n)
    (hW : 0 < W) (hWw : W ≤ weights.length) :
    klBucketTerm v weights W =
      (((List.range n).map (fun b =>
        v.getD b 0 /
          (((List.range W).map (fun t => (weights.getD t []).getD b 0)).sum
            + epsWeight))).sum) / (n : Rat) := by
  have htake_len : (weights.take W).length = W := by
    rw [List.length_take]
    exact Nat.min_eq_left hWw
  have hne : weights.take W ≠ [] := by
    intro hcon
    rw [hcon] at htake_len
    simp at htake_len
    omega
  have htw : ∀ wv ∈ weights.take W, wv.length = n :=
    fun wv hwv => hwn wv (List.mem_of_mem_take hwv)
  obtain ⟨haddlen, haddD⟩ := add_n_spec (weights.take W) n hne htw
  have hts_len : ((add_n (weights.take W)).map (fun x => x + epsWeight)).length = n := by
    rw [List.length_map, haddlen]
  have hts_getD : ∀ b, b < n →
      ((add_n (weights.take W)).map (fun x => x + epsWeight)).getD b 0 =
        ((List.range W).map (fun t => (weights.getD t []).getD b 0)).sum + epsWeight := by
    intro b hb
    rw [List.getD_eq_getElem _ _ (by rw [hts_len]; exact hb), List.getElem_map,
        ← List.getD_eq_getElem (add_n (weights.take W)) 0 (by rw [haddlen]; exact hb),
        haddD b hb, take_eq_map_range weights W hWw, List.map_map]
    rfl
  unfold klBucketTerm reduce_mean
  rw [zipWith_sum_eq (· / ·) v _ (by rw [hvn, hts_len]), hvn]
  have hlen2 : (List.zipWith (· / ·) v
      ((add_n (weights.take W)).map (fun x => x + epsWeight))).length = n := by
    rw [List.length_zipWith, hvn, hts_len]
    exact Nat.min_self n
  rw [hlen2]
  congr 1
  exact congrArg List.sum (List.map_congr_left
    (fun b hb => by rw [hts_getD b (List.mem_range.mp hb)]))

/-- C2: when construction succeeds, `KL_objs[j]` for a bucket of output width
`W` is the batch mean of each example's `kl_obj` divided by that example's
total target weight (the elementwise sum of `target_weights[0..W-1]` plus the
constant `1e-9`), and `KL_costs[j]` is defined identically from `kl_cost`;
both are scalars. -/
theorem c2_kl_normalization
    (klObjs klCosts : List (List Rat)) (targets : List (List Nat))
    (weights : List (List Rat)) (buckets : List (Nat × Nat))
    (objs costs : List Rat) (j I W n : Nat) (v u : List Rat)
    (hok : variational_decoder_with_buckets klObjs klCosts targets weights buckets =
      .ok (objs, costs))
    (hj : buckets.get? j = some (I, W))
    (hv : klObjs.get? j = some v) (hu : klCosts.get? j = some u)
    (hvn : v.length = n) (hun : u.length = n)
    (hwn : ∀ wv ∈ weights, wv.length = n)
    (hW : 0 < W) (hWw : W ≤ weights.length) :
    objs.get? j = some ((((List.range n).map (fun b =>
        v.getD b 0 /
          (((List.range W).map (fun t => (weights.getD t []).getD b 0)).sum
            + 1 / 1000000000))).sum) / (n : Rat)) ∧
    costs.get? j = some ((((List.range n).map (fun b =>
        u.getD b 0 /
          (((List.range W).map (fun t => (weights.getD t []).getD b 0)).sum
            + 1 / 1000000000))).sum) / (n : Rat)) := by
  have hjlt : j < buckets.length := (List.get?_eq_some.mp hj).1
  have hobjs : objs = (List.range buckets.length).map
      (fun j => klBucketTerm (klObjs.getD j []) weights ((buckets.getD j (0, 0)).2)) ∧
      costs = (List.range buckets.length).map
      (fun j => klBucketTerm (klCosts.getD j []) weights ((buckets.getD j (0, 0)).2)) := by
    unfold variational_decoder_with_buckets at hok
    cases hlast : buckets.getLast? with
    | none => rw [hlast] at hok; exact absurd hok (by simp)
    | some lastB =>
      rw [hlast] at hok
      dsimp only at hok
      by_cases h1 : targets.length < lastB.2
      · rw [if_pos h1] at hok; exact absurd hok (by simp)
      · rw [if_neg h1] at hok
        by_cases h2 : weights.length < lastB.2
        · rw [if_pos h2] at hok; exact absurd hok (by simp)
        · rw [if_neg h2] at hok
          simp only [Except.ok.injEq, Prod.mk.injEq] at hok
          exact ⟨hok.1.symm, hok.2.symm⟩
  obtain ⟨ho, hc⟩ := hobjs
  have hbj : (buckets.getD j (0, 0)).2 = W := by
    rw [getD_of_get? buckets j (I, W) (0, 0) hj]
  have hvj : klObjs.getD j [] = v := getD_of_get? klObjs j v [] hv
  have huj : klCosts.getD j [] = u := getD_of_get? klCosts j u [] hu
  constructor
  · rw [ho, List.get?_map, List.get?_range hjlt, Option.map_some']
    rw [hvj, hbj, klBucketTerm_spec v weights W n hvn hwn hW hWw]
    rfl
  · rw [hc, List.get?_map, List.get?_range hjlt, Option.map_some']
    rw [huj, hbj, klBucketTerm_spec u weights W n hun hwn hW hWw]
    rfl

/-- Witness for C2: one bucket `(2, 2)`, batch size 1, `kl_obj = [4]`,
`kl_cost = [6]`, weights `[[1], [1]]`: each term is the value divided by
`2 + 1e-9`. -/
theorem c2_kl_normalization_witness :
    ([(4000000000 : Rat) / 2000000001] : List Rat).get? 0 =
      some ((((List.range 1).map (fun b =>
        ([(4 : Rat)] : List Rat).getD b 0 /
          (((List.range 2).map
              (fun t => (([[1], [1]] : List (List Rat)).getD t []).getD b 0)).sum
            + 1 / 1000000000))).sum) / ((1 : Nat) : Rat)) ∧
    ([(6000000000 : Rat) / 2000000001] : List Rat).get? 0 =
      some ((((List.range 1).map (fun b =>
        ([(6 : Rat)] : List Rat).getD b 0 /
          (((List.range 2).map
              (fun t => (([[1], [1]] : List (List Rat)).getD t []).getD b 0)).sum
            + 1 / 1000000000))).sum) / ((1 : Nat) : Rat)) :=
  c2_kl_normalization [[4]] [[6]] [[], []] [[1], [1]] [(2, 2)]
    [(4000000000 : Rat) / 2000000001] [(6000000000 : Rat) / 2000000001]
    0 2 2 1 [4] [6]
    (by
      unfold variational_decoder_with_buckets
      norm_num [klBucketTerm, reduce_mean, add_n, epsWeight, List.range_succ])
    (by decide) (by decide) (by decide)
    (by decide) (by decide) (by decide) (by decide) (by decide)

/-- C6: construction raises the length `ValueError` exactly when `targets` or
`weights` is shorter than the last bucket's output width (checked before any
per-bucket KL or loss computation is built), and succeeds otherwise. -/
theorem c6_construction_precondition
    (klObjs klCosts : List (List Rat)) (targets : List (List Nat))
    (weights : List (List Rat)) (buckets : List (Nat × Nat)) (lastB : Nat × Nat)
    (hl : buckets.getLast? = some lastB) :
    ((∃ r, variational_decoder_with_buckets klObjs klCosts targets weights buckets =
        .ok r) ↔ (lastB.2 ≤ targets.length ∧ lastB.2 ≤ weights.length)) ∧
    (targets.length < lastB.2 →
      variational_decoder_with_buckets klObjs klCosts targets weights buckets =
        .error "Length of targets must be at least that of last bucket.") ∧
    (lastB.2 ≤ targets.length → weights.length < lastB.2 →
      variational_decoder_with_buckets klObjs klCosts targets weights buckets =
        .error "Length of weights must be at least that of last bucket.") := by
  unfold variational_decoder_with_buckets
  rw [hl]
  dsimp only
  by_cases h1 : targets.length < lastB.2
  · rw [if_pos h1]
    refine ⟨⟨fun hcon => ?_, fun hcon => absurd hcon.1 (by omega)⟩, fun _ => rfl,
      fun hcon _ => absurd hcon (by omega)⟩
    obtain ⟨r, hr⟩ := hcon
    exact absurd hr (by simp)
  · rw [if_neg h1]
    by_cases h2 : weights.length < lastB.2
    · rw [if_pos h2]
      refine ⟨⟨fun hcon => ?_, fun hcon => absurd hcon.2 (by omega)⟩,
        fun hcon => absurd hcon h1, fun _ _ => rfl⟩
      obtain ⟨r, hr⟩ := hcon
      exact absurd hr (by simp)
    · rw [if_neg h2]
      exact ⟨⟨fun _ => ⟨by omega, by omega⟩, fun _ => ⟨_, rfl⟩⟩,
        fun hcon => absurd hcon h1, fun _ hcon => absurd hcon h2⟩

/-- Witness for C6 at one bucket `(2, 3)` with too-short `targets`: the iff and
the targets-error branch, applied at concrete lists. -/
theorem c6_construction_precondition_witness :
    ((∃ r, variational_decoder_with_buckets [[0]] [[0]] [[5]] [[1], [1], [1]] [(2, 3)] =
        .ok r) ↔ ((3 : Nat) ≤ ([[5]] : List (List Nat)).length ∧
          (3 : Nat) ≤ ([[1], [1], [1]] : List (List Rat)).length)) ∧
    (([[5]] : List (List Nat)).length < 3 →
      variational_decoder_with_buckets [[0]] [[0]] [[5]] [[1], [1], [1]] [(2, 3)] =
        .error "Length of targets must be at least that of last bucket.") ∧
    ((3 : Nat) ≤ ([[5]] : List (List Nat)).length →
      ([[1], [1], [1]] : List (List Rat)).length < 3 →
      variational_decoder_with_buckets [[0]] [[0]] [[5]] [[1], [1], [1]] [(2, 3)] =
        .error "Length of weights must be at least that of last bucket.") :=
  c6_construction_precondition [[0]] [[0]] [[5]] [[1], [1], [1]] [(2, 3)] (2, 3)
    (by decide)

end VRAE
